import Mathlib

/-!
Verification of the `ourcubes` room coordinator (`src/worker/src/room.ts`,
`src/worker/src/schema.ts`, `src/worker/src/index.ts`).

The coordinator is embedded shallowly: JavaScript numbers that flow through
the `| 0` coercion are modelled as `Int` truncated by `toInt32`; the JS `Map`
(insertion-ordered, unique keys) is modelled as an association list with
update-in-place `set` and `filter`-based `delete`; `Date.now()` becomes an
explicit `now : Int` parameter.
-/

namespace Ourcubes

/-- JavaScript `x | 0`: ToInt32 truncation (wrap modulo 2^32 into
[-2^31, 2^31)). -/
def toInt32 (n : Int) : Int :=
  (n + 2147483648) % 4294967296 - 2147483648

/-- `Voxel` from schema.ts: `{color, t, by?}`. The optional attribution
field `by` is a Lean keyword, rendered `by_`. -/
structure Voxel where
  color : String
  t : Int
  by_ : Option String
deriving DecidableEq, Repr

/-- `OpSetVoxel` from schema.ts: `{type:"set", k, color, t, by?}` (the
constant `type` tag is omitted). `k` and `t` are raw client-supplied
numbers, truncated by `| 0` inside `processVoxelOp`. -/
structure OpSetVoxel where
  k : Int
  color : Option String
  t : Int
  by_ : Option String
deriving DecidableEq, Repr

/-- Association-list lookup, modelling JS `Map.get`. -/
def aGet {κ α : Type} [DecidableEq κ] (m : List (κ × α)) (k : κ) : Option α :=
  (m.find? (fun e => e.1 = k)).map (·.2)

/-- Association-list insert, modelling JS `Map.set`: update in place when
the key is present (JS Maps keep the original insertion position),
otherwise append. -/
def aSet {κ α : Type} [DecidableEq κ] (m : List (κ × α)) (k : κ) (v : α) :
    List (κ × α) :=
  if m.any (fun e => e.1 = k) then
    m.map (fun e => if e.1 = k then (k, v) else e)
  else
    m ++ [(k, v)]

/-- Association-list removal, modelling JS `Map.delete`. -/
def aDelete {κ α : Type} [DecidableEq κ] (m : List (κ × α)) (k : κ) :
    List (κ × α) :=
  m.filter (fun e => ¬ e.1 = k)

abbrev VoxelMap := List (Nat × Voxel)

/-- `CanvasState` from schema.ts: `{size: 20, voxels, lamport, version}`. -/
structure CanvasState where
  size : Nat
  voxels : VoxelMap
  lamport : Int
  version : Nat
deriving DecidableEq, Repr

/-- The initial in-memory canvas of `VoxelRoomDO` (room.ts lines 16-21). -/
def initialCanvas : CanvasState :=
  { size := 20, voxels := [], lamport := 0, version := 0 }

/-- The logical clock step, room.ts line 197:
`Math.max(this.canvas.lamport + 1, (op.t | 0) + 1)`; `cand` is the already
truncated client timestamp. -/
def advance (cur cand : Int) : Int :=
  max (cur + 1) (cand + 1)

/-- `processVoxelOp` (room.ts lines 193-211): validate the cell, advance
the lamport clock, then resolve the op last-write-wins (the stored record
survives only when its timestamp is strictly greater than the new `t`,
so an exact tie is won by the incoming op). -/
def processVoxelOp (c : CanvasState) (op : OpSetVoxel) :
    Option OpSetVoxel × CanvasState :=
  let k := toInt32 op.k
  if k < 0 ∨ 8000 ≤ k then (none, c)
  else
    let t := advance c.lamport (toInt32 op.t)
    let c1 : CanvasState := { c with lamport := t }
    let kn := k.toNat
    match op.color with
    | none =>
      match aGet c1.voxels kn with
      | none => (none, c1)
      | some cur =>
        if t < cur.t then (none, c1)
        else (some { k := k, color := none, t := t, by_ := op.by_ },
              { c1 with voxels := aDelete c1.voxels kn })
    | some col =>
      match aGet c1.voxels kn with
      | some cur =>
        if t < cur.t then (none, c1)
        else (some { k := k, color := some col, t := t, by_ := op.by_ },
              { c1 with voxels := aSet c1.voxels kn (Voxel.mk col t op.by_) })
      | none =>
        (some { k := k, color := some col, t := t, by_ := op.by_ },
         { c1 with voxels := aSet c1.voxels kn (Voxel.mk col t op.by_) })

/-- The batch loop of `handleSetOps` (room.ts lines 178-184): run each op
through `processVoxelOp` in order, threading the canvas, collecting the
non-null applied ops in order. -/
def processOps (c : CanvasState) : List OpSetVoxel →
    CanvasState × List OpSetVoxel
  | [] => (c, [])
  | op :: rest =>
    let r := processVoxelOp c op
    let rest' := processOps r.2 rest
    (rest'.1, match r.1 with
              | some a => a :: rest'.2
              | none => rest'.2)

/-- Outcome of a `set` batch: rate-limited reject, silently-no-effect, or
an `apply` broadcast carrying the applied ops and the new version. -/
inductive SetResult
  | rejected
  | noEffect
  | broadcast (ops : List OpSetVoxel) (version : Nat)
deriving DecidableEq, Repr

/-- The post-rate-limit part of `handleSetOps` (room.ts lines 178-190):
if any op was applied, increment `version` by exactly 1 and broadcast,
otherwise change nothing and send nothing. -/
def applyBatch (c : CanvasState) (ops : List OpSetVoxel) :
    CanvasState × SetResult :=
  let r := processOps c ops
  if r.2.isEmpty then (r.1, .noEffect)
  else ({ r.1 with version := r.1.version + 1 },
        .broadcast r.2 (r.1.version + 1))

/-- Sequential processing of several permitted write-batches. -/
def processBatches (c : CanvasState) (batches : List (List OpSetVoxel)) :
    CanvasState :=
  batches.foldl (fun c ops => (applyBatch c ops).1) c

/-- A rate bucket (room.ts line 22): `{tokens, last}`, created at full
capacity `{tokens: 80, last: now}` on connect. -/
structure Bucket where
  tokens : Int
  last : Int
deriving DecidableEq, Repr

/-- The lazily refilled token count of `checkBucket` (room.ts lines
283-284): `Math.min(80, b.tokens + Math.max(0, Math.floor((now - b.last) / 50)))`. -/
def refillTokens (b : Bucket) (now : Int) : Int :=
  min 80 (b.tokens + max 0 ((now - b.last).fdiv 50))

/-- `checkBucket` (room.ts lines 279-289): refill from elapsed time, record
`last := now`, then deduct `cost` only when enough tokens are present. -/
def checkBucket (b : Bucket) (now : Int) (cost : Int) : Bucket × Bool :=
  let tokens := refillTokens b now
  if tokens < cost then ({ tokens := tokens, last := now }, false)
  else ({ tokens := tokens - cost, last := now }, true)

/-- `handleSetOps` (room.ts lines 164-191): charge the whole batch length
against the bucket; on failure reply `reject` and do nothing else; on
success run the batch. -/
def handleSetOps (b : Bucket) (now : Int) (c : CanvasState)
    (ops : List OpSetVoxel) : Bucket × CanvasState × SetResult :=
  let r := checkBucket b now (ops.length : Int)
  if r.2 then
    let a := applyBatch c ops
    (r.1, a.1, a.2)
  else (r.1, c, .rejected)

/-- One entry of the packed wire/storage form: either the current
three-element `[k, colorHex, t]` or the legacy two-element `[k, colorHex]`. -/
inductive PackedEntry
  | triple (k : Nat) (color : String) (t : Int)
  | pair (k : Nat) (color : String)
deriving DecidableEq, Repr

/-- `packState` (room.ts lines 244-248): emit `[k, v.color, v.t]` for each
stored voxel in map order; the `by` attribution field is not written. -/
def packState (m : VoxelMap) : List PackedEntry :=
  m.map (fun kv => .triple kv.1 kv.2.color kv.2.t)

/-- One step of the rehydration loop in the `VoxelRoomDO` constructor
(room.ts lines 37-40): a two-element legacy entry gets timestamp 0, and the
rebuilt record carries no attribution. -/
def unpackEntry : PackedEntry → Nat × Voxel
  | .triple k hex t => (k, Voxel.mk hex t none)
  | .pair k hex => (k, Voxel.mk hex 0 none)

/-- The rehydration loop: `this.canvas.voxels.set(k, {color: hex, t})` over
the packed entries, starting from the empty map. -/
def unpackState (entries : List PackedEntry) : VoxelMap :=
  entries.foldl (fun m e => aSet m (unpackEntry e).1 (unpackEntry e).2) []

/-- `StaticRoomData`: the frozen export written to KV by `freezeRoom`
(room.ts lines 301-308). -/
structure StaticRoomData where
  version : Nat
  voxels : List PackedEntry
  frozenAt : Int
  roomSlug : String
deriving DecidableEq, Repr

/-- `freezeRoom` (room.ts lines 299-319): snapshot the current packed state
and version under the room's static key; the live canvas is not touched. -/
def freezeRoom (c : CanvasState) (slug : String) (now : Int) :
    StaticRoomData :=
  { version := c.version, voxels := packState c.voxels, frozenAt := now,
    roomSlug := slug }

/-- Whole-system state for one room: the DO's canvas, the `STATIC_ROOMS`
KV entry for this room's slug (some ⇔ a frozen snapshot exists), and the
rate buckets of the connections currently open to the DO. -/
structure Sys where
  canvas : CanvasState
  kv : Option StaticRoomData
  buckets : List (Nat × Bucket)
deriving DecidableEq, Repr

/-- Externally visible room events: a client opening a connection (routed
by index.ts), an administrative freeze, and a write-batch arriving on an
open connection. -/
inductive Event
  | connect (id : Nat) (now : Int)
  | freeze (slug : String) (now : Int)
  | setOps (id : Nat) (ops : List OpSetVoxel) (now : Int)

/-- System step. `connect`: the worker router (index.ts lines 14-54)
serves a `ws` request from the static KV entry when one exists — the
connection is answered and closed without ever reaching the DO — and
otherwise forwards to the DO, whose `handleSocket` (room.ts lines 96-99)
registers a full bucket. `freeze`: `freezeRoom` writes the KV entry.
`setOps`: `handleSetOps` runs against the connection's bucket; a message
on an unknown connection is dropped (`checkBucket` returns false when the
bucket is absent, room.ts line 281). -/
def stepSys (s : Sys) : Event → Sys
  | .connect id now =>
    match s.kv with
    | some _ => s
    | none => { s with buckets := aSet s.buckets id (Bucket.mk 80 now) }
  | .freeze slug now => { s with kv := some (freezeRoom s.canvas slug now) }
  | .setOps id ops now =>
    match aGet s.buckets id with
    | none => s
    | some b =>
      let r := handleSetOps b now s.canvas ops
      { s with canvas := r.2.1, buckets := aSet s.buckets id r.1 }

/-- `PlayerPresence` from schema.ts: `{playerId, cursor?}`. -/
structure PlayerPresence where
  playerId : String
  cursor : Option (Int × Int × Int)
deriving DecidableEq, Repr

/-- `handleHello` (room.ts lines 149-162): the only place a presence entry
for a connection is created. -/
def handleHello (pm : List (Nat × PlayerPresence)) (ws : Nat)
    (playerId : String) : List (Nat × PlayerPresence) :=
  aSet pm ws (PlayerPresence.mk playerId none)

/-- `broadcastPresence` (room.ts lines 234-242): deduplicate the presence
records by playerId, last writer for an id winning, then broadcast the
values. -/
def broadcastPresence (pm : List (Nat × PlayerPresence)) :
    List PlayerPresence :=
  ((pm.map (·.2)).foldl (fun acc p => aSet acc p.playerId p) []).map (·.2)

/-- `handlePresence` (room.ts lines 213-223): update the cursor and
broadcast only when the connection already has a presence entry (i.e. its
hello handshake completed); otherwise do nothing at all. -/
def handlePresence (pm : List (Nat × PlayerPresence)) (ws : Nat)
    (cursor : Option (Int × Int × Int)) :
    List (Nat × PlayerPresence) × Option (List PlayerPresence) :=
  match aGet pm ws with
  | none => (pm, none)
  | some p =>
    let pm' := aSet pm ws (PlayerPresence.mk p.playerId cursor)
    (pm', some (broadcastPresence pm'))

/-- The successive clock values produced by a sequence of `advance` calls
starting from `cur`. -/
def advanceTrace (cur : Int) : List Int → List Int
  | [] => []
  | x :: xs => advance cur x :: advanceTrace (advance cur x) xs

/-- `effectiveRunB c batches` holds when, processing the batches in order
from canvas `c`, every batch applies at least one op (and so broadcasts). -/
def effectiveRunB : CanvasState → List (List OpSetVoxel) → Bool
  | _, [] => true
  | c, ops :: rest =>
    !(processOps c ops).2.isEmpty && effectiveRunB (applyBatch c ops).1 rest

/-- The canvas invariants of the spec data model: the clock is at least
every stored timestamp, and every stored key lies below 8000. -/
def Inv (c : CanvasState) : Prop :=
  ∀ kv ∈ c.voxels, kv.2.t ≤ c.lamport ∧ kv.1 < 8000

instance (c : CanvasState) : Decidable (Inv c) :=
  List.decidableBAll _ _

/-- A well-formed set op on cell 5. -/
def op1 : OpSetVoxel := OpSetVoxel.mk 5 (some "#FF0000") 0 none

/-- A set op whose cell id is negative, hence silently discarded. -/
def opInvalid : OpSetVoxel := OpSetVoxel.mk (-1) (some "#FF0000") 0 none

/-- A set op whose cell id 4294967301 = 2^32 + 5 lies far outside
[0, 8000) but is truncated to 5 by the `| 0` coercion. -/
def opWrap : OpSetVoxel := OpSetVoxel.mk 4294967301 (some "#FF0000") 0 none

/-- A small concrete store; the record at key 5 carries an attribution. -/
def demoStore : VoxelMap :=
  [(5, Voxel.mk "#FF0000" 3 (some "p")), (7, Voxel.mk "#00FF00" 9 none)]

/-- A fresh room: empty canvas, no frozen snapshot, no connections. -/
def sys0 : Sys := Sys.mk initialCanvas none []

/-- The room after connection 1 opens and the room is then frozen. -/
def sysFrozen : Sys :=
  stepSys (stepSys sys0 (Event.connect 1 0)) (Event.freeze "room" 1000)

/-- The frozen room after connection 1 sends a write-batch. -/
def sysAfterWrite : Sys :=
  stepSys sysFrozen (Event.setOps 1 [op1] 1000)

/-- Claim C9: a presence message received on a connection that has not
completed a hello handshake (so has no presence entry) is a complete
no-op — the presence map is unchanged and no presence broadcast is sent. -/
theorem presence_before_hello (pm : List (Nat × PlayerPresence)) (ws : Nat)
    (cursor : Option (Int × Int × Int)) (h : aGet pm ws = none) :
    handlePresence pm ws cursor = (pm, none) := by
  unfold handlePresence
  rw [h]

/-- Witness for C9: on an empty presence map the handler does nothing. -/
theorem presence_before_hello_witness :
    aGet ([] : List (Nat × PlayerPresence)) 0 = none ∧
    handlePresence [] 0 (some (1, 2, 3)) = ([], none) :=
  ⟨rfl, presence_before_hello [] 0 (some (1, 2, 3)) rfl⟩

/-- Amended claim C6: an operation whose cell identifier lies outside
[0, 8000) after 32-bit integer truncation (the JS `| 0` coercion) is
silently discarded: `processVoxelOp` returns null and leaves the whole
canvas — store, clock and version — unchanged. -/
theorem invalid_cell_noop (c : CanvasState) (op : OpSetVoxel)
    (h : toInt32 op.k < 0 ∨ 8000 ≤ toInt32 op.k) :
    processVoxelOp c op = (none, c) := by
  unfold processVoxelOp
  rw [if_pos h]

/-- Witness for amended C6: cell id 8000 is rejected with nothing
changed. -/
theorem invalid_cell_noop_witness :
    (toInt32 (OpSetVoxel.mk 8000 (some "#FF0000") 0 none).k < 0 ∨
      8000 ≤ toInt32 (OpSetVoxel.mk 8000 (some "#FF0000") 0 none).k) ∧
    processVoxelOp initialCanvas (OpSetVoxel.mk 8000 (some "#FF0000") 0 none) =
      (none, initialCanvas) :=
  ⟨by decide,
   invalid_cell_noop initialCanvas (OpSetVoxel.mk 8000 (some "#FF0000") 0 none)
     (by decide)⟩

/-- Counterexample to C6 as stated: the cell id 4294967301 = 2^32 + 5 lies
outside [0, 8000), yet the op is not discarded — the `| 0` coercion maps
it to cell 5, which is overwritten and an applied op returned. -/
theorem out_of_range_cell_applied :
    (8000 : Int) ≤ (4294967301 : Int) ∧
    processVoxelOp initialCanvas opWrap =
      (some (OpSetVoxel.mk 5 (some "#FF0000") 1 none),
       CanvasState.mk 20 [(5, Voxel.mk "#FF0000" 1 none)] 1 0) := by
  constructor
  · decide
  · decide

/-- Counterexample to C5 as stated: with bucket `{tokens := 0, last := 0}`
at `now = 100` and cost 80, `checkBucket` returns false (insufficient
tokens) yet the bucket state is mutated: the lazy refill of 2 tokens and
the new last-check time are stored. -/
theorem checkBucket_mutates_on_insufficient :
    checkBucket (Bucket.mk 0 0) 100 80 = (Bucket.mk 2 100, false) ∧
    Bucket.mk 2 100 ≠ Bucket.mk 0 0 := by
  decide

/-- Amended claim C5: `checkBucket` refills lazily from elapsed time
(1 token per 50ms, fractional refill truncated, never negative, capped at
capacity 80) and records the refill and check time, then deducts `cost`
only if enough tokens are available; on insufficient tokens it returns
false without deducting (though the refill and updated last-check time are
kept). A batch is charged its full length as one atomic cost: if the
bucket cannot cover it the batch is rejected with the canvas untouched,
otherwise the whole batch is processed. -/
theorem checkBucket_spec (b : Bucket) (now cost : Int) (c : CanvasState)
    (ops : List OpSetVoxel) :
    (0 ≤ max 0 ((now - b.last).fdiv 50) ∧ refillTokens b now ≤ 80) ∧
    (cost ≤ refillTokens b now →
      checkBucket b now cost = (Bucket.mk (refillTokens b now - cost) now, true)) ∧
    (refillTokens b now < cost →
      checkBucket b now cost = (Bucket.mk (refillTokens b now) now, false)) ∧
    ((ops.length : Int) ≤ refillTokens b now →
      handleSetOps b now c ops =
        (Bucket.mk (refillTokens b now - ops.length) now, applyBatch c ops)) ∧
    (refillTokens b now < (ops.length : Int) →
      handleSetOps b now c ops =
        (Bucket.mk (refillTokens b now) now, c, SetResult.rejected)) := by
  refine ⟨⟨le_max_left 0 _, min_le_left 80 _⟩, ?_, ?_, ?_, ?_⟩
  · intro h
    unfold checkBucket
    rw [if_neg (not_lt.mpr h)]
  · intro h
    unfold checkBucket
    rw [if_pos h]
  · intro h
    unfold handleSetOps checkBucket
    rw [if_neg (not_lt.mpr h)]
    rfl
  · intro h
    unfold handleSetOps checkBucket
    rw [if_pos h]
    rfl

/-- Witness for amended C5: a full bucket covers a cost of 1. -/
theorem checkBucket_spec_witness :
    checkBucket (Bucket.mk 80 0) 0 1 = (Bucket.mk 79 0, true) :=
  (checkBucket_spec (Bucket.mk 80 0) 0 1 initialCanvas []).2.1 (by decide)

/-- Counterexample to C4 as stated: starting from a fresh room, connection
1 opens, the room is frozen (the snapshot exists in KV), and yet the
write-batch `[op1]` sent afterwards on connection 1 is accepted: the
version increments and cell 5 is written. -/
theorem write_after_freeze_accepted :
    sysFrozen.kv ≠ none ∧
    sysAfterWrite.canvas.version = sysFrozen.canvas.version + 1 ∧
    aGet sysAfterWrite.canvas.voxels 5 ≠ none := by
  decide

/-- Amended claim C4: once a frozen snapshot exists for the room, a new
connection attempt is served the frozen snapshot by the worker router and
never reaches the live room, so connections opened after the freeze cannot
write; but the room's write handler does not consult the frozen snapshot —
a write-batch arriving on a connection opened before the freeze is
processed exactly as if the room were not frozen, and can still mutate the
store and version. -/
theorem frozen_room_routing (s : Sys) (d : StaticRoomData) (id : Nat)
    (now : Int) (ops : List OpSetVoxel) (hk : s.kv = some d) :
    stepSys s (Event.connect id now) = s ∧
    (stepSys s (Event.setOps id ops now)).canvas =
      (stepSys (Sys.mk s.canvas none s.buckets) (Event.setOps id ops now)).canvas := by
  constructor
  · unfold stepSys
    rw [hk]
  · simp only [stepSys]
    cases h : aGet s.buckets id with
    | none => simp [h]
    | some b => simp [h]

/-- Witness for amended C4: in the concrete frozen room, a second
connection attempt changes nothing. -/
theorem frozen_room_routing_witness :
    sysFrozen.kv = some (freezeRoom initialCanvas "room" 1000) ∧
    stepSys sysFrozen (Event.connect 2 0) = sysFrozen :=
  ⟨by decide,
   (frozen_room_routing sysFrozen (freezeRoom initialCanvas "room" 1000) 2 0 []
     (by decide)).1⟩

/-- Each single advance step strictly increases the clock. -/
theorem advance_gt (cur cand : Int) : cur < advance cur cand :=
  lt_of_lt_of_le (lt_add_one cur) (le_max_left (cur + 1) (cand + 1))

/-- Claim C3: the logical clock's advance returns
`max(currentValue + 1, candidate + 1)`; the resulting clock values are
strictly increasing across any sequence of advance calls regardless of the
candidates; and on a valid cell `processVoxelOp` stores exactly
`advance lamport (op.t | 0)` as the new clock value. -/
theorem advance_clock_spec :
    (∀ cur cand : Int, advance cur cand = max (cur + 1) (cand + 1)) ∧
    (∀ (cur : Int) (cands : List Int),
      List.Chain' (· < ·) (cur :: advanceTrace cur cands)) ∧
    (∀ (c : CanvasState) (op : OpSetVoxel),
      0 ≤ toInt32 op.k → toInt32 op.k < 8000 →
      (processVoxelOp c op).2.lamport = advance c.lamport (toInt32 op.t)) := by
  refine ⟨fun cur cand => rfl, ?_, ?_⟩
  · intro cur cands
    induction cands generalizing cur with
    | nil => simp [advanceTrace]
    | cons x xs ih =>
      rw [advanceTrace, List.chain'_cons]
      exact ⟨advance_gt cur x, ih (advance cur x)⟩
  · intro c op h0 h1
    unfold processVoxelOp
    rw [if_neg (by omega)]
    cases hcol : op.color with
    | none =>
      cases hget : aGet c.voxels ((toInt32 op.k).toNat) with
      | none => simp [hget]
      | some cur => by_cases hlt : advance c.lamport (toInt32 op.t) < cur.t <;>
          simp [hget, hlt]
    | some col =>
      cases hget : aGet c.voxels ((toInt32 op.k).toNat) with
      | none => simp [hget]
      | some cur => by_cases hlt : advance c.lamport (toInt32 op.t) < cur.t <;>
          simp [hget, hlt]

/-- Witness for C3: a stale candidate still advances the clock. -/
theorem advance_clock_spec_witness :
    (processVoxelOp initialCanvas op1).2.lamport =
      advance initialCanvas.lamport (toInt32 op1.t) :=
  advance_clock_spec.2.2 initialCanvas op1 (by decide) (by decide)

/-- Resolving a single op never touches the version counter. -/
theorem processVoxelOp_version (c : CanvasState) (op : OpSetVoxel) :
    (processVoxelOp c op).2.version = c.version := by
  simp only [processVoxelOp]
  repeat' split
  all_goals rfl

/-- The batch loop never touches the version counter. -/
theorem processOps_version (ops : List OpSetVoxel) (c : CanvasState) :
    (processOps c ops).1.version = c.version := by
  induction ops generalizing c with
  | nil => rfl
  | cons op rest ih =>
    show (processOps (processVoxelOp c op).2 rest).1.version = c.version
    rw [ih, processVoxelOp_version]

/-- Claim C2: across any sequence of processed write-batches in which each
batch applies at least one op, the version grows by exactly the number of
batches (one increment per batch-with-effect, not per op); a batch whose
ops are all discarded leaves the version unchanged and broadcasts
nothing. -/
theorem version_counts_effective_batches :
    (∀ (batches : List (List OpSetVoxel)) (c : CanvasState),
      effectiveRunB c batches = true →
      (processBatches c batches).version = c.version + batches.length) ∧
    (∀ (c : CanvasState) (ops : List OpSetVoxel),
      (processOps c ops).2 = [] →
      (applyBatch c ops).1.version = c.version ∧
      (applyBatch c ops).2 = SetResult.noEffect) := by
  constructor
  · intro batches
    induction batches with
    | nil => intro c _; rfl
    | cons ops rest ih =>
      intro c h
      rw [effectiveRunB, Bool.and_eq_true, Bool.not_eq_true'] at h
      obtain ⟨h1, h2⟩ := h
      show (processBatches (applyBatch c ops).1 rest).version = _
      rw [ih _ h2]
      have hv : (applyBatch c ops).1.version = c.version + 1 := by
        simp only [applyBatch]
        rw [if_neg (by simp [h1])]
        show (processOps c ops).1.version + 1 = c.version + 1
        rw [processOps_version]
      rw [hv, List.length_cons]
      omega
  · intro c ops h
    simp only [applyBatch]
    rw [h]
    exact ⟨processOps_version ops c, rfl⟩

/-- Witness for C2: one effective batch increments the version once; a
batch containing only an invalid op leaves it unchanged and silent. -/
theorem version_counts_effective_batches_witness :
    (processBatches initialCanvas [[op1]]).version =
      initialCanvas.version + 1 ∧
    (applyBatch initialCanvas [opInvalid]).1.version =
      initialCanvas.version ∧
    (applyBatch initialCanvas [opInvalid]).2 = SetResult.noEffect :=
  ⟨by
    have h := version_counts_effective_batches.1 [[op1]] initialCanvas (by decide)
    simpa using h,
   version_counts_effective_batches.2 initialCanvas [opInvalid] (by decide)⟩

/-- Inserting a fresh key appends the binding at the end, as a JS
`Map.set` does. -/
theorem aSet_not_mem {κ α : Type} [DecidableEq κ] (m : List (κ × α)) (k : κ)
    (v : α) (h : ∀ e ∈ m, e.1 ≠ k) : aSet m k v = m ++ [(k, v)] := by
  unfold aSet
  have hc : ¬ (m.any (fun e => e.1 = k) = true) := by
    simp only [List.any_eq_true, decide_eq_true_eq, not_exists]
    intro e
    simp only [not_and]
    exact h e
  rw [if_neg hc]

/-- A member of `aSet m k v` is either the inserted binding or an original
member. -/
theorem mem_aSet {κ α : Type} [DecidableEq κ] {m : List (κ × α)} {k : κ}
    {v : α} {kv : κ × α} (h : kv ∈ aSet m k v) : kv = (k, v) ∨ kv ∈ m := by
  unfold aSet at h
  split at h
  · rw [List.mem_map] at h
    obtain ⟨e, he, heq⟩ := h
    by_cases hek : e.1 = k
    · rw [if_pos hek] at heq
      exact Or.inl heq.symm
    · rw [if_neg hek] at heq
      exact Or.inr (heq ▸ he)
  · rw [List.mem_append] at h
    rcases h with h | h
    · exact Or.inr h
    · exact Or.inl (by simpa using h)

/-- Deletion only removes members. -/
theorem mem_aDelete {κ α : Type} [DecidableEq κ] {m : List (κ × α)} {k : κ}
    {kv : κ × α} (h : kv ∈ aDelete m k) : kv ∈ m :=
  (List.mem_filter.mp h).1

/-- A successful lookup comes from a member binding. -/
theorem aGet_eq_some_mem {κ α : Type} [DecidableEq κ] {m : List (κ × α)}
    {k : κ} {v : α} (h : aGet m k = some v) : (k, v) ∈ m := by
  unfold aGet at h
  cases hf : m.find? (fun e => e.1 = k) with
  | none => rw [hf] at h; cases h
  | some e =>
    rw [hf] at h
    have h1 : e.1 = k := by simpa using List.find?_some hf
    have h2 : e ∈ m := List.mem_of_find?_eq_some hf
    have h3 : e.2 = v := by simpa using h
    have : e = (k, v) := Prod.ext h1 h3
    exact this ▸ h2

/-- Erasing the attribution of every record commutes with lookup. -/
theorem aGet_erase_by (m : VoxelMap) (k : Nat) :
    aGet (m.map (fun kv => (kv.1, Voxel.mk kv.2.color kv.2.t none))) k =
      (aGet m k).map (fun v => Voxel.mk v.color v.t none) := by
  induction m with
  | nil => rfl
  | cons kv rest ih =>
    by_cases hk : kv.1 = k
    · simp [aGet, List.find?_cons_of_pos, hk]
    · unfold aGet
      rw [List.map_cons, List.find?_cons_of_neg _ (by simpa using hk),
        List.find?_cons_of_neg _ (by simpa using hk)]
      exact ih

/-- Unpacking the packed form of a store with distinct keys rebuilds the
store entry by entry: each `Map.set` appends a fresh key. -/
theorem unpack_foldl_packed (m : VoxelMap) :
    ∀ acc : VoxelMap, (m.map (·.1)).Nodup →
    (∀ e ∈ m, e.1 ∉ acc.map (·.1)) →
    (packState m).foldl
        (fun mm e => aSet mm (unpackEntry e).1 (unpackEntry e).2) acc =
      acc ++ m.map (fun kv => (kv.1, Voxel.mk kv.2.color kv.2.t none)) := by
  induction m with
  | nil => intro acc _ _; simp [packState]
  | cons kv rest ih =>
    intro acc hnd hdisj
    rw [List.map_cons, List.nodup_cons] at hnd
    have hstep : aSet acc kv.1 (Voxel.mk kv.2.color kv.2.t none) =
        acc ++ [(kv.1, Voxel.mk kv.2.color kv.2.t none)] := by
      refine aSet_not_mem acc kv.1 _ (fun e he => ?_)
      intro heq
      exact hdisj kv (List.mem_cons_self kv rest)
        (heq ▸ List.mem_map_of_mem (·.1) he)
    show (packState rest).foldl _
        (aSet acc kv.1 (Voxel.mk kv.2.color kv.2.t none)) = _
    rw [hstep, ih (acc ++ [(kv.1, Voxel.mk kv.2.color kv.2.t none)]) hnd.2]
    · simp
    · intro e he
      simp only [List.map_append, List.mem_append, not_or]
      constructor
      · exact hdisj e (List.mem_cons_of_mem kv he)
      · simp only [List.map_cons, List.map_nil, List.mem_singleton]
        intro heq
        exact hnd.1 (heq ▸ List.mem_map_of_mem (·.1) he)

/-- Round-trip normal form: packing then unpacking a store with distinct
keys reproduces it with every attribution erased. -/
theorem unpackState_packState (m : VoxelMap) (h : (m.map (·.1)).Nodup) :
    unpackState (packState m) =
      m.map (fun kv => (kv.1, Voxel.mk kv.2.color kv.2.t none)) := by
  have := unpack_foldl_packed m [] h (by simp)
  simpa [unpackState] using this

/-- Claim C7: for every non-empty store, packing then unpacking (the
rehydration path) preserves the cell-to-color mapping and every timestamp;
a legacy two-element packed entry is accepted with timestamp 0. -/
theorem pack_unpack_roundtrip (m : VoxelMap) (_hne : m ≠ [])
    (h : (m.map (·.1)).Nodup) :
    (∀ k : Nat,
      (aGet (unpackState (packState m)) k).map (fun v => (v.color, v.t)) =
        (aGet m k).map (fun v => (v.color, v.t))) ∧
    (∀ (k : Nat) (hex : String),
      unpackState [PackedEntry.pair k hex] = [(k, Voxel.mk hex 0 none)]) := by
  constructor
  · intro k
    rw [unpackState_packState m h, aGet_erase_by]
    cases aGet m k <;> rfl
  · intro k hex
    rfl

/-- Witness for C7: a concrete two-cell store round-trips. -/
theorem pack_unpack_roundtrip_witness :
    demoStore ≠ [] ∧
    (aGet (unpackState (packState demoStore)) 5).map
        (fun v => (v.color, v.t)) =
      (aGet demoStore 5).map (fun v => (v.color, v.t)) :=
  ⟨by decide, (pack_unpack_roundtrip demoStore (by decide) (by decide)).1 5⟩

/-- Every record rebuilt by the rehydration loop carries no attribution. -/
theorem unpack_by_none (entries : List PackedEntry) :
    ∀ acc : VoxelMap, (∀ kv ∈ acc, kv.2.by_ = none) →
    ∀ kv ∈ entries.foldl
        (fun mm e => aSet mm (unpackEntry e).1 (unpackEntry e).2) acc,
      kv.2.by_ = none := by
  induction entries with
  | nil => intro acc hacc; exact hacc
  | cons e es ih =>
    intro acc hacc
    refine ih _ (fun kv hkv => ?_)
    rcases mem_aSet hkv with h | h
    · rw [h]
      cases e <;> rfl
    · exact hacc kv h

/-- Claim C10: packing drops the attribution field, so after a
persist-and-rehydrate (or freeze-export) cycle every voxel's attribution
is absent — even when the in-memory record carried one. -/
theorem pack_drops_attribution (m : VoxelMap) (k : Nat) (v : Voxel)
    (h : aGet (unpackState (packState m)) k = some v) : v.by_ = none := by
  have hmem := aGet_eq_some_mem h
  exact unpack_by_none (packState m) [] (by simp) (k, v) hmem

/-- Witness for C10: the record at key 5 carried attribution "p" in
memory, and carries none after the round trip. -/
theorem pack_drops_attribution_witness :
    aGet (unpackState (packState demoStore)) 5 =
      some (Voxel.mk "#FF0000" 3 none) ∧
    (Voxel.mk "#FF0000" 3 none).by_ = none :=
  ⟨by decide,
   pack_drops_attribution demoStore 5 (Voxel.mk "#FF0000" 3 none) (by decide)⟩

/-- Claim C1: on a valid cell, `processVoxelOp` resolves the op
last-write-wins against the store at the coordinator-assigned timestamp
`t = advance lamport (op.t | 0)`. A set is discarded (null returned, the
cell map untouched, only the clock advanced) exactly when the stored
record's timestamp is strictly greater than `t`, and otherwise the cell is
overwritten with `{color, t, attribution}` and the applied set returned; a
clear is discarded exactly when the cell is empty or strictly newer than
`t`, and otherwise the cell is removed and an applied clear at `t`
returned. The surviving-record test being `t < cur.t`, an exact tie
`cur.t = t` is won by the incoming op. -/
theorem processVoxelOp_lww (c : CanvasState) (op : OpSetVoxel)
    (t : Int) (kn : Nat) (c1 : CanvasState)
    (hv : 0 ≤ toInt32 op.k ∧ toInt32 op.k < 8000)
    (ht : t = advance c.lamport (toInt32 op.t))
    (hk : kn = (toInt32 op.k).toNat)
    (hc : c1 = CanvasState.mk c.size c.voxels t c.version) :
    (∀ col : String, op.color = some col →
      ((∀ cur, aGet c.voxels kn = some cur → cur.t ≤ t) →
        processVoxelOp c op =
          (some (OpSetVoxel.mk (toInt32 op.k) (some col) t op.by_),
           CanvasState.mk c.size (aSet c.voxels kn (Voxel.mk col t op.by_))
             t c.version)) ∧
      (∀ cur, aGet c.voxels kn = some cur → t < cur.t →
        processVoxelOp c op = (none, c1))) ∧
    (op.color = none →
      ((aGet c.voxels kn = none → processVoxelOp c op = (none, c1)) ∧
       (∀ cur, aGet c.voxels kn = some cur →
         (t < cur.t → processVoxelOp c op = (none, c1)) ∧
         (cur.t ≤ t →
           processVoxelOp c op =
             (some (OpSetVoxel.mk (toInt32 op.k) none t op.by_),
              CanvasState.mk c.size (aDelete c.voxels kn) t
                c.version))))) := by
  obtain ⟨hv0, hv1⟩ := hv
  subst ht hk hc
  constructor
  · intro col hcol
    constructor
    · intro hle
      unfold processVoxelOp
      rw [if_neg (by omega), hcol]
      cases hget : aGet c.voxels ((toInt32 op.k).toNat) with
      | none => simp [hget]
      | some cur =>
        have hcur := hle cur hget
        simp [hget, not_lt.mpr hcur]
    · intro cur hget hlt
      unfold processVoxelOp
      rw [if_neg (by omega), hcol]
      simp [hget, hlt]
  · intro hcol
    constructor
    · intro hget
      unfold processVoxelOp
      rw [if_neg (by omega), hcol]
      simp [hget]
    · intro cur hget
      constructor
      · intro hlt
        unfold processVoxelOp
        rw [if_neg (by omega), hcol]
        simp [hget, hlt]
      · intro hle
        unfold processVoxelOp
        rw [if_neg (by omega), hcol]
        simp [hget, not_lt.mpr hle]

/-- Witness for C1: an incoming set at an exact timestamp tie overwrites
the stored record. The canvas has lamport 0 and a record at cell 5 with
timestamp 1; the op carries client clock 0, so t = max(0+1, 0+1) = 1 =
stored timestamp, and the write wins. -/
theorem processVoxelOp_lww_witness :
    (∀ cur, aGet [(5, Voxel.mk "#0000FF" 1 (some "q"))] (5 : Nat) = some cur →
      cur.t ≤ 1) ∧
    processVoxelOp (CanvasState.mk 20 [(5, Voxel.mk "#0000FF" 1 (some "q"))] 0 0)
        op1 =
      (some (OpSetVoxel.mk 5 (some "#FF0000") 1 none),
       CanvasState.mk 20 [(5, Voxel.mk "#FF0000" 1 none)] 1 0) := by
  have hle : ∀ cur,
      aGet [(5, Voxel.mk "#0000FF" 1 (some "q"))] (5 : Nat) = some cur →
      cur.t ≤ 1 := by
    intro cur hcur
    have : some (Voxel.mk "#0000FF" 1 (some "q")) = some cur := by
      rw [← hcur]
      decide
    cases this
    decide
  refine ⟨hle, ?_⟩
  have h := (processVoxelOp_lww
    (CanvasState.mk 20 [(5, Voxel.mk "#0000FF" 1 (some "q"))] 0 0) op1
    1 5 (CanvasState.mk 20 [(5, Voxel.mk "#0000FF" 1 (some "q"))] 1 0)
    (by decide) (by decide) (by decide) (by decide)).1 "#FF0000" (by decide)
  have h2 := h.1 hle
  rw [h2]
  decide

/-- Resolving one op preserves the canvas invariants: the clock only
advances, survivors keep their (now smaller-or-equal) timestamps, and the
only key ever inserted is the validated one below 8000. -/
theorem processVoxelOp_inv (c : CanvasState) (op : OpSetVoxel) (h : Inv c) :
    Inv (processVoxelOp c op).2 := by
  unfold processVoxelOp
  by_cases hv : toInt32 op.k < 0 ∨ 8000 ≤ toInt32 op.k
  · rw [if_pos hv]
    exact h
  · rw [if_neg hv]
    push_neg at hv
    have hlam : c.lamport ≤ advance c.lamport (toInt32 op.t) :=
      le_of_lt (advance_gt c.lamport (toInt32 op.t))
    have hkn : (toInt32 op.k).toNat < 8000 := by omega
    cases hcol : op.color with
    | none =>
      cases hget : aGet c.voxels ((toInt32 op.k).toNat) with
      | none =>
        simp only [hget]
        intro kv hkv
        obtain ⟨h1, h2⟩ := h kv hkv
        exact ⟨le_trans h1 hlam, h2⟩
      | some cur =>
        by_cases hlt : advance c.lamport (toInt32 op.t) < cur.t
        · simp only [hget, if_pos hlt]
          intro kv hkv
          obtain ⟨h1, h2⟩ := h kv hkv
          exact ⟨le_trans h1 hlam, h2⟩
        · simp only [hget, if_neg hlt]
          intro kv hkv
          obtain ⟨h1, h2⟩ := h kv (mem_aDelete hkv)
          exact ⟨le_trans h1 hlam, h2⟩
    | some col =>
      have hset : ∀ kv, kv ∈ aSet c.voxels ((toInt32 op.k).toNat)
          (Voxel.mk col (advance c.lamport (toInt32 op.t)) op.by_) →
          kv.2.t ≤ advance c.lamport (toInt32 op.t) ∧ kv.1 < 8000 := by
        intro kv hkv
        rcases mem_aSet hkv with heq | hmem
        · rw [heq]
          exact ⟨le_refl _, hkn⟩
        · obtain ⟨h1, h2⟩ := h kv hmem
          exact ⟨le_trans h1 hlam, h2⟩
      cases hget : aGet c.voxels ((toInt32 op.k).toNat) with
      | none =>
        simp only [hget]
        intro kv hkv
        exact hset kv hkv
      | some cur =>
        by_cases hlt : advance c.lamport (toInt32 op.t) < cur.t
        · simp only [hget, if_pos hlt]
          intro kv hkv
          obtain ⟨h1, h2⟩ := h kv hkv
          exact ⟨le_trans h1 hlam, h2⟩
        · simp only [hget, if_neg hlt]
          intro kv hkv
          exact hset kv hkv

/-- The batch loop preserves the canvas invariants. -/
theorem processOps_inv (ops : List OpSetVoxel) (c : CanvasState)
    (h : Inv c) : Inv (processOps c ops).1 := by
  induction ops generalizing c with
  | nil => exact h
  | cons op rest ih =>
    show Inv (processOps (processVoxelOp c op).2 rest).1
    exact ih _ (processVoxelOp_inv c op h)

/-- A whole batch (including its version bump) preserves the canvas
invariants. -/
theorem applyBatch_inv (c : CanvasState) (ops : List OpSetVoxel)
    (h : Inv c) : Inv (applyBatch c ops).1 := by
  simp only [applyBatch]
  split
  · exact processOps_inv ops c h
  · intro kv hkv
    exact processOps_inv ops c h kv hkv

/-- Claim C8: the canvas invariants — the clock is never smaller than any
stored timestamp, and every stored key lies in [0, 8000) — hold in the
initial state and are preserved by processing any sequence of
write-batches, hence hold in every reachable state. -/
theorem canvas_invariants :
    Inv initialCanvas ∧
    ∀ (c : CanvasState) (batches : List (List OpSetVoxel)),
      Inv c → Inv (processBatches c batches) := by
  constructor
  · intro kv hkv
    cases hkv
  · intro c batches
    induction batches generalizing c with
    | nil => exact fun h => h
    | cons ops rest ih =>
      intro h
      show Inv (processBatches (applyBatch c ops).1 rest)
      exact ih _ (applyBatch_inv c ops h)

/-- Witness for C8: the invariants hold after one concrete batch from the
fresh room. -/
theorem canvas_invariants_witness :
    Inv (processBatches initialCanvas [[op1]]) :=
  canvas_invariants.2 initialCanvas [[op1]] (by decide)

end Ourcubes
